import Mathlib

/-!
Shallow embedding of the port-manager lease registry core
(`src/lib/registry.mjs`, `src/lib/core-api.mjs`, `src/lib/lock.mjs`).

Conventions of the embedding:
* JS numbers for ports and range bounds are `Nat`; JS falsiness of a number
  is `= 0`, of a string is `= ""`.
* Timestamps (`leasedAt`, `now`) are `Int` milliseconds since epoch
  (the JS code stores ISO-8601 strings and compares `Date.getTime()` values).
* The filesystem is abstracted: `fsExists : String → Bool` stands for
  `existsSync`, and the external port liveness probe is
  `checker : Nat → Bool` standing for `isPortInUse` (spec §6 collaborators).
* Each API operation returns `(result, persistedRegistry, saved)`:
  `result : Except PMError α` mirrors return value vs `throw`;
  `persistedRegistry` is the registry on disk after the call — it equals the
  input whenever the source path reaches no `saveRegistry` call (every
  `throw` in the source happens before `saveRegistry`); `saved : Bool`
  records whether `saveRegistry` was invoked.
* Identifier / worktree auto-derivation from git is an external collaborator
  (spec §1, out of scope); the embedding models calls in which `identifier`
  is supplied (non-empty), matching the claims.
-/

namespace PortManager

/-- Pool record: `{ rangeStart, rangeEnd }` from the registry document. -/
structure Pool where
  rangeStart : Nat
  rangeEnd : Nat
deriving Repr, DecidableEq

/-- Lease record as stored in `registry.leases` (registry.mjs `addLease`). -/
structure Lease where
  port : Nat
  pool : String
  identifier : String
  worktreePath : String
  tag : String
  leasedAt : Int
deriving Repr, DecidableEq

/-- The persisted registry document: `pools` is a name-keyed mapping
(association list; JS object with unique keys), `leases` an ordered list.
`version` and `lastModified` carry no semantics for the claims. -/
structure Registry where
  pools : List (String × Pool)
  leases : List Lease
deriving Repr, DecidableEq

/-- Look a pool up by name (JS `registry.pools[name]`). -/
def Registry.findPool (r : Registry) (name : String) : Option Pool :=
  (r.pools.find? (fun e => e.1 == name)).map (·.2)

/-- Error taxonomy: one constructor per distinct `throw new Error(...)` site
reached by the embedded operations (spec §7). -/
inductive PMError where
  | poolRequired
  | unknownPool (pool : String)
  | poolExhausted (pool : String) (rangeStart rangeEnd : Nat)
  | noLeaseWithTag (tag : String)
  | noLeasesForProject
  | missingPoolArgs
  | invalidRange
  | poolExists (name : String)
  | poolDoesNotExist (name : String)
  | poolHasLeases (name : String) (count : Nat)
  | leasesOutOfRange (count : Nat)
deriving Repr, DecidableEq

/-- Result triple of an API operation: outcome, persisted registry after the
call, and whether `saveRegistry` ran. -/
abbrev ApiResult (α : Type) := Except PMError α × Registry × Bool

/-- registry.mjs `getExistingLease`: first lease matching
(identifier, pool, tag); `(lease.tag || '')` is the identity on the
always-present string field of the embedding. -/
def getExistingLease (r : Registry) (identifier pool tag : String) : Option Lease :=
  r.leases.find? (fun l => l.identifier == identifier && l.pool == pool && l.tag == tag)

/-- registry.mjs `getLeasedPorts`: ports of all leases in a pool. -/
def getLeasedPorts (r : Registry) (pool : String) : List Nat :=
  (r.leases.filter (fun l => l.pool == pool)).map (·.port)

/-- Candidate acceptance test from the `for` loop of core-api.mjs `lease`:
`!leasedPorts.includes(port) && !(await this.portChecker(port))`. -/
def portFree (leasedPorts : List Nat) (checker : Nat → Bool) (p : Nat) : Bool :=
  !(leasedPorts.contains p) && !(checker p)

/-- Ascending scan of `n` consecutive candidates starting at `lo`, returning
the first accepted one — the `for (let port = rangeStart; port <= rangeEnd;
port++)` loop with early `break`. -/
def scanFrom (pred : Nat → Bool) : Nat → Nat → Option Nat
  | _, 0 => none
  | lo, n + 1 => if pred lo then some lo else scanFrom pred (lo + 1) n

/-- The loop over the inclusive range `[rangeStart, rangeEnd]`; when
`rangeEnd < rangeStart` the body never runs. -/
def findFreePort (pred : Nat → Bool) (rangeStart rangeEnd : Nat) : Option Nat :=
  scanFrom pred rangeStart (rangeEnd + 1 - rangeStart)

/-- registry.mjs `addLease`: append the freshly composed lease. -/
def addLease (r : Registry) (port : Nat) (pool identifier worktreePath tag : String)
    (now : Int) : Lease × Registry :=
  let l : Lease := ⟨port, pool, identifier, worktreePath, tag, now⟩
  (l, { r with leases := r.leases ++ [l] })

/-- core-api.mjs `PortManagerAPI.lease` (body inside the held lock).
`validatePool` is inlined as the `findPool` match. The JS guard
`if (!foundPort)` is falsy both for `null` and for port number `0`, hence
the explicit `some 0` case. -/
def lease (checker : Nat → Bool) (now : Int) (r : Registry)
    (pool tag identifier worktreePath : String) : ApiResult Nat :=
  if pool = "" then (.error .poolRequired, r, false)
  else
    match r.findPool pool with
    | none => (.error (.unknownPool pool), r, false)
    | some po =>
      match getExistingLease r identifier pool tag with
      | some l => (.ok l.port, r, false)
      | none =>
        let leasedPorts := getLeasedPorts r pool
        match findFreePort (portFree leasedPorts checker) po.rangeStart po.rangeEnd with
        | none => (.error (.poolExhausted pool po.rangeStart po.rangeEnd), r, false)
        | some 0 => (.error (.poolExhausted pool po.rangeStart po.rangeEnd), r, false)
        | some (p + 1) =>
          let r' := (addLease r (p + 1) pool identifier worktreePath tag now).2
          (.ok (p + 1), r', true)

/-- registry.mjs `removeLeasesByIdentifier`: keep leases whose identifier
differs; return (new registry, removed count). -/
def removeLeasesByIdentifier (r : Registry) (identifier : String) : Registry × Nat :=
  let remaining := r.leases.filter (fun l => !(l.identifier == identifier))
  ({ r with leases := remaining }, r.leases.length - remaining.length)

/-- registry.mjs `removeLeasesByTag`: drop leases matching (identifier, tag);
`(lease.tag || '')` is the identity on the string field. -/
def removeLeasesByTag (r : Registry) (identifier tag : String) : Registry × Nat :=
  let remaining := r.leases.filter (fun l => !(l.identifier == identifier && l.tag == tag))
  ({ r with leases := remaining }, r.leases.length - remaining.length)

/-- core-api.mjs `PortManagerAPI.release` (body inside the held lock).
`tag = none` models the JS argument left `undefined` (release all for the
identifier); `tag = some t` models a supplied tag value, including `""`. -/
def release (r : Registry) (tag : Option String) (identifier : String) : ApiResult Nat :=
  let removed := match tag with
    | some t => removeLeasesByTag r identifier t
    | none => removeLeasesByIdentifier r identifier
  if removed.2 = 0 then
    (.error (match tag with
      | some t => .noLeaseWithTag t
      | none => .noLeasesForProject), r, false)
  else
    (.ok removed.2, removed.1, true)

/-- Staleness threshold: `staleThresholdDays * 24 * 60 * 60 * 1000` with the
default `staleThresholdDays = 7` used by `cleanup`. -/
def staleThresholdMs : Int := 7 * 24 * 60 * 60 * 1000

/-- Per-lease staleness test of registry.mjs `findStaleLeases`: stale when
the worktree path is set (non-empty) but missing on disk; otherwise stale
when the lease age exceeds the threshold and the liveness probe reports the
port not in use. (`lease.leasedAt` is always a non-empty ISO string for
leases created by `addLease`, and `cleanup` always supplies the probe, so
those two JS truthiness guards always pass in the embedding.) -/
def isStaleLease (fsExists : String → Bool) (inUse : Nat → Bool) (now : Int)
    (l : Lease) : Bool :=
  if l.worktreePath != "" && !(fsExists l.worktreePath) then true
  else if now - l.leasedAt > staleThresholdMs then !(inUse l.port)
  else false

/-- registry.mjs `findStaleLeases`: the stale candidates, in registry order. -/
def findStaleLeases (fsExists : String → Bool) (inUse : Nat → Bool) (now : Int)
    (r : Registry) : List Lease :=
  r.leases.filter (isStaleLease fsExists inUse now)

/-- registry.mjs `removeStaleLeases`: remove every lease whose PORT occurs
among the stale candidates' ports (removal is keyed by port, not by lease
identity). -/
def removeStaleLeases (r : Registry) (stale : List Lease) : Registry × Nat :=
  let stalePorts := stale.map (·.port)
  let remaining := r.leases.filter (fun l => !(stalePorts.contains l.port))
  ({ r with leases := remaining }, r.leases.length - remaining.length)

/-- core-api.mjs `PortManagerAPI.cleanup` (body inside the held lock):
returns (stale candidates, removedCount), the persisted registry, and the
saved flag. Dry runs and empty candidate sets persist nothing. -/
def cleanup (fsExists : String → Bool) (inUse : Nat → Bool) (now : Int)
    (r : Registry) (isDryRun : Bool) : (List Lease × Nat) × Registry × Bool :=
  let stale := findStaleLeases fsExists inUse now r
  if stale.length = 0 then ((stale, 0), r, false)
  else if isDryRun then ((stale, 0), r, false)
  else
    let removed := removeStaleLeases r stale
    ((stale, removed.2), removed.1, true)

/-- registry.mjs `addPool`: reject duplicates, else insert the new entry. -/
def addPoolReg (r : Registry) (name : String) (rs re : Nat) : Except PMError Registry :=
  if (r.findPool name).isSome then .error (.poolExists name)
  else .ok { r with pools := r.pools ++ [(name, ⟨rs, re⟩)] }

/-- registry.mjs `updatePool`: reject unknown names, else replace the range. -/
def updatePoolReg (r : Registry) (name : String) (rs re : Nat) : Except PMError Registry :=
  if (r.findPool name).isSome then
    .ok { r with pools := r.pools.map (fun e => if e.1 == name then (e.1, ⟨rs, re⟩) else e) }
  else .error (.poolDoesNotExist name)

/-- registry.mjs `deletePool`: reject unknown names; else count the leases
still referencing the pool and drop the pool entry. -/
def deletePoolReg (r : Registry) (name : String) : Except PMError (Registry × Nat) :=
  if (r.findPool name).isSome then
    let count := (r.leases.filter (fun l => l.pool == name)).length
    .ok ({ r with pools := r.pools.filter (fun e => !(e.1 == name)) }, count)
  else .error (.poolDoesNotExist name)

/-- core-api.mjs `PortManagerAPI.poolAdd`: `!poolName || !rangeStart ||
!rangeEnd` rejects empty name and ZERO bounds (JS numeric falsiness), then
`rangeStart >= rangeEnd` rejects malformed ranges. -/
def poolAdd (r : Registry) (name : String) (rs re : Nat) : ApiResult Unit :=
  if name = "" ∨ rs = 0 ∨ re = 0 then (.error .missingPoolArgs, r, false)
  else if rs ≥ re then (.error .invalidRange, r, false)
  else
    match addPoolReg r name rs re with
    | .error e => (.error e, r, false)
    | .ok r' => (.ok (), r', true)

/-- core-api.mjs `PortManagerAPI.poolUpdate`: same argument validation as
`poolAdd`; the affected-lease check counts leases whose pool is the given
name OR the name with an `-https` suffix and whose port leaves the new
bounds, and rejects before `updatePool` runs. -/
def poolUpdate (r : Registry) (name : String) (rs re : Nat) : ApiResult Unit :=
  if name = "" ∨ rs = 0 ∨ re = 0 then (.error .missingPoolArgs, r, false)
  else if rs ≥ re then (.error .invalidRange, r, false)
  else
    let affected := r.leases.filter
      (fun l => (l.pool == name || l.pool == name ++ "-https") && (l.port < rs || l.port > re))
    if affected.length > 0 then (.error (.leasesOutOfRange affected.length), r, false)
    else
      match updatePoolReg r name rs re with
      | .error e => (.error e, r, false)
      | .ok r' => (.ok (), r', true)

/-- core-api.mjs `PortManagerAPI.poolDelete`: reject empty names; then
`deletePool` counts the pool's leases, and a positive count aborts before
`saveRegistry`, so the persisted registry stays the input. -/
def poolDelete (r : Registry) (name : String) : ApiResult Unit :=
  if name = "" then (.error .missingPoolArgs, r, false)
  else
    match deletePoolReg r name with
    | .error e => (.error e, r, false)
    | .ok (r', count) =>
      if count > 0 then (.error (.poolHasLeases name count), r, false)
      else (.ok (), r', true)

/-! ### Advisory file lock (lock.mjs)

The lock filesystem is a marker bit plus the protected shared data. The
acquisition loop is abstracted by a `stale : Bool` verdict for the existing
marker: a fresh marker makes every retry fail until `LockTimeout`, a stale
one is force-removed and the marker is then created. -/

/-- Lock-marker filesystem state: marker presence plus the guarded data. -/
structure LockFs (σ : Type) where
  lockPresent : Bool
  data : σ
deriving Repr, DecidableEq

/-- Filesystem error relevant to `unlink`. -/
inductive FsErr where
  | enoent
  | other
deriving Repr, DecidableEq

/-- Raw `unlink(LOCK_PATH)`: fails with `ENOENT` when the marker is absent. -/
def unlinkLock {σ : Type} (s : LockFs σ) : Except FsErr (LockFs σ) :=
  if s.lockPresent then .ok { s with lockPresent := false }
  else .error .enoent

/-- lock.mjs `releaseLock`: `unlink`, ignoring `ENOENT` (releasing an
already-absent marker is not an error); other fs errors propagate. -/
def releaseLock {σ : Type} (s : LockFs σ) : Except FsErr (LockFs σ) :=
  match unlinkLock s with
  | .ok s' => .ok s'
  | .error .enoent => .ok { s with lockPresent := false }
  | .error .other => .error .other

/-- lock.mjs `acquireLock`: exclusive creation succeeds when no marker is
present; an existing stale marker is removed and creation succeeds on the
retry; a fresh marker makes every 100 ms retry fail until the timeout
(`none` = `LockTimeout`, no marker created). -/
def acquireLock {σ : Type} (stale : Bool) (s : LockFs σ) : Option (LockFs σ) :=
  if !s.lockPresent then some { s with lockPresent := true }
  else if stale then some { s with lockPresent := true }
  else none

/-- Outcome of a locked operation: the lock error, a filesystem failure
during release, or the wrapped function's own outcome. -/
inductive LockedOutcome (ε α : Type) where
  | lockTimeout
  | releaseFailed
  | inner (r : Except ε α)
deriving Repr

/-- lock.mjs `withLock`: acquire, run `fn` on the guarded data, and release
in a `finally` — the release runs both when `fn` returns and when it
throws, and its (impossible) failure would mask `fn`'s outcome. -/
def withLock {σ ε α : Type} (fn : σ → Except ε α × σ) (stale : Bool)
    (s : LockFs σ) : LockedOutcome ε α × LockFs σ :=
  match acquireLock stale s with
  | none => (.lockTimeout, s)
  | some s₁ =>
    let res := fn s₁.data
    match releaseLock { s₁ with data := res.2 } with
    | .ok s₂ => (.inner res.1, s₂)
    | .error _ => (.releaseFailed, { s₁ with data := res.2 })

/-! ### Concrete sample data used by witnesses and counterexamples -/

/-- A registry with one pool and one existing lease, for witnesses. -/
def wReg : Registry :=
  ⟨[("frontend", ⟨3300, 3499⟩)], [⟨3300, "frontend", "proj", "", "", 0⟩]⟩

/-- The lease held in `wReg`. -/
def wLease : Lease := ⟨3300, "frontend", "proj", "", "", 0⟩

/-- A two-port pool whose whole range is already leased to another project. -/
def wRegFull : Registry :=
  ⟨[("tiny", ⟨5300, 5301⟩)],
   [⟨5300, "tiny", "other", "", "", 0⟩, ⟨5301, "tiny", "other", "", "x", 0⟩]⟩

/-- Counterexample lease for the staleness claim: older than 7 days, port
reported in use, but its non-empty worktree path is missing. -/
def cexLease : Lease := ⟨5300, "backend", "proj", "/gone", "", 0⟩

/-- Observation time for the staleness counterexample: 8 days past
`cexLease.leasedAt`. -/
def cexNow : Int := 8 * 24 * 60 * 60 * 1000

/-- Registry holding only `cexLease`. -/
def cexReg : Registry := ⟨[("backend", ⟨5300, 5499⟩)], [cexLease]⟩

/-- Two leases sharing port 5300: the first is stale (missing worktree), the
second is fresh with an empty worktree path, hence not stale. -/
def cexReg9 : Registry :=
  ⟨[("backend", ⟨5300, 5499⟩)],
   [⟨5300, "backend", "projA", "/gone", "", 0⟩,
    ⟨5300, "backend", "projB", "", "", 0⟩]⟩

/-! ### Helper lemmas -/

theorem length_filter_add_length_filter_not {α : Type} (p : α → Bool) (l : List α) :
    (l.filter p).length + (l.filter (fun a => !(p a))).length = l.length := by
  induction l with
  | nil => rfl
  | cons a l ih =>
    by_cases h : p a <;> simp [List.filter_cons, h, ← ih] <;> omega

theorem length_filter_pos_of_mem {α : Type} {p : α → Bool} {l : List α} {a : α}
    (ha : a ∈ l) (hp : p a = true) : 0 < (l.filter p).length :=
  List.length_pos.mpr (List.ne_nil_of_mem (List.mem_filter.mpr ⟨ha, hp⟩))

theorem scanFrom_eq_some {pred : Nat → Bool} :
    ∀ (n lo p : Nat), scanFrom pred lo n = some p →
      lo ≤ p ∧ p < lo + n ∧ pred p = true ∧ ∀ q, lo ≤ q → q < p → pred q = false := by
  intro n
  induction n with
  | zero => intro lo p h; simp [scanFrom] at h
  | succ n ih =>
    intro lo p h
    simp only [scanFrom] at h
    by_cases hp : pred lo
    · simp only [hp, if_true] at h
      injection h with h
      subst h
      exact ⟨Nat.le_refl _, by omega, hp, fun q hq1 hq2 => absurd hq1 (by omega)⟩
    · simp only [hp, if_false] at h
      obtain ⟨h1, h2, h3, h4⟩ := ih (lo + 1) p h
      refine ⟨by omega, by omega, h3, ?_⟩
      intro q hq1 hq2
      rcases Nat.eq_or_lt_of_le hq1 with heq | hlt
      · subst heq
        exact Bool.eq_false_iff.mpr hp
      · exact h4 q hlt hq2

theorem scanFrom_isSome {pred : Nat → Bool} :
    ∀ (n lo p : Nat), lo ≤ p → p < lo + n → pred p = true →
      (scanFrom pred lo n).isSome = true := by
  intro n
  induction n with
  | zero => intro lo p h1 h2 _; omega
  | succ n ih =>
    intro lo p h1 h2 h3
    simp only [scanFrom]
    by_cases hp : pred lo
    · simp [hp]
    · simp only [hp, if_false]
      rcases Nat.eq_or_lt_of_le h1 with heq | hlt
      · subst heq; exact absurd h3 hp
      · exact ih (lo + 1) p hlt (by omega) h3

theorem scanFrom_eq_none {pred : Nat → Bool} :
    ∀ (n lo : Nat), (∀ q, lo ≤ q → q < lo + n → pred q = false) →
      scanFrom pred lo n = none := by
  intro n
  induction n with
  | zero => intro lo _; rfl
  | succ n ih =>
    intro lo h
    have hlo : pred lo = false := h lo (Nat.le_refl _) (by omega)
    simp only [scanFrom, hlo, if_false]
    exact ih (lo + 1) (fun q h1 h2 => h q (by omega) (by omega))

/-- Number of lease records carrying a given (identifier, pool, tag) triple. -/
def tripleCount (r : Registry) (identifier pool tag : String) : Nat :=
  (r.leases.filter
    (fun l => l.identifier == identifier && l.pool == pool && l.tag == tag)).length

/-! ### Claims -/

/-- C1: Lease idempotence. If the registry already holds a lease for
(identifier, pool, tag), `lease` returns that lease's port, the persisted
registry is the unchanged input, and nothing is saved. Moreover, leasing the
same triple twice (in a registry holding at most one lease per triple, the
§3 identity invariant) yields the identical port both times, the second call
changes and saves nothing, and exactly one lease record for the triple
exists afterwards. Hypotheses `pool ≠ ""` and a present pool entry reflect
the §3 invariant that every lease's pool references a created pool. -/
theorem lease_idempotent
    (checker : Nat → Bool) (now now₂ : Int) (r : Registry)
    (pool tag identifier worktreePath worktreePath₂ : String)
    (hpool : pool ≠ "") (hfp : (r.findPool pool).isSome = true) :
    (∀ l, getExistingLease r identifier pool tag = some l →
      lease checker now r pool tag identifier worktreePath = (.ok l.port, r, false)) ∧
    (tripleCount r identifier pool tag ≤ 1 →
      ∀ p r₁ b, lease checker now r pool tag identifier worktreePath = (.ok p, r₁, b) →
        lease checker now₂ r₁ pool tag identifier worktreePath₂ = (.ok p, r₁, false) ∧
        tripleCount r₁ identifier pool tag = 1) := by
  obtain ⟨po, hpo⟩ := Option.isSome_iff_exists.mp hfp
  constructor
  · intro l hl
    simp [lease, hpool, hpo, hl]
  · intro hcount p r₁ b hcall
    cases hex : getExistingLease r identifier pool tag with
    | some l =>
      have h1 : lease checker now r pool tag identifier worktreePath
          = (.ok l.port, r, false) := by simp [lease, hpool, hpo, hex]
      rw [h1] at hcall
      simp only [Prod.mk.injEq, Except.ok.injEq] at hcall
      obtain ⟨hp, hr, hb⟩ := hcall
      subst hp; subst hr
      constructor
      · simp [lease, hpool, hpo, hex]
      · have hmem := List.mem_of_find?_eq_some hex
        have hpred := List.find?_some hex
        have hpos := length_filter_pos_of_mem
          (p := fun l => l.identifier == identifier && l.pool == pool && l.tag == tag)
          hmem hpred
        unfold tripleCount at hcount ⊢
        omega
    | none =>
      cases hscan : findFreePort (portFree (getLeasedPorts r pool) checker)
          po.rangeStart po.rangeEnd with
      | none =>
        have h1 : lease checker now r pool tag identifier worktreePath
            = (.error (.poolExhausted pool po.rangeStart po.rangeEnd), r, false) := by
          simp [lease, hpool, hpo, hex, hscan]
        rw [h1] at hcall
        simp at hcall
      | some q =>
        cases q with
        | zero =>
          have h1 : lease checker now r pool tag identifier worktreePath
              = (.error (.poolExhausted pool po.rangeStart po.rangeEnd), r, false) := by
            simp [lease, hpool, hpo, hex, hscan]
          rw [h1] at hcall
          simp at hcall
        | succ q =>
          have h1 : lease checker now r pool tag identifier worktreePath
              = (.ok (q + 1),
                 { r with leases :=
                     r.leases ++ [⟨q + 1, pool, identifier, worktreePath, tag, now⟩] },
                 true) := by
            simp [lease, hpool, hpo, hex, hscan, addLease]
          rw [h1] at hcall
          simp only [Prod.mk.injEq, Except.ok.injEq] at hcall
          obtain ⟨hp, hr, hb⟩ := hcall
          subst hp
          have hnewpred :
              (fun l : Lease =>
                  l.identifier == identifier && l.pool == pool && l.tag == tag)
                ⟨q + 1, pool, identifier, worktreePath, tag, now⟩ = true := by
            simp
          have hfind₁ : getExistingLease
              { r with leases :=
                  r.leases ++ [⟨q + 1, pool, identifier, worktreePath, tag, now⟩] }
              identifier pool tag
              = some ⟨q + 1, pool, identifier, worktreePath, tag, now⟩ := by
            unfold getExistingLease at hex ⊢
            simp only [List.find?_append, hex, Option.none_or]
            simp [List.find?]
          constructor
          · rw [← hr]
            have hfp₁ : Registry.findPool
                { r with leases :=
                    r.leases ++ [⟨q + 1, pool, identifier, worktreePath, tag, now⟩] }
                pool = some po := hpo
            simp [lease, hpool, hfp₁, hfind₁]
          · rw [← hr]
            have hnil : r.leases.filter
                (fun l => l.identifier == identifier && l.pool == pool && l.tag == tag)
                = [] := by
              rw [List.filter_eq_nil_iff]
              intro a ha
              have := List.find?_eq_none.mp hex a ha
              simpa using this
            unfold tripleCount
            simp [List.filter_append, hnil]

/-- Witness for C1: on `wReg` the pre-existing lease's port 3300 is returned
and the registry is untouched and unsaved. -/
theorem lease_idempotent_witness :
    lease (fun _ => false) 0 wReg "frontend" "" "proj" "" = (.ok 3300, wReg, false) :=
  (lease_idempotent (fun _ => false) 0 0 wReg "frontend" "" "proj" "" ""
      (by decide) (by rfl)).1 wLease (by rfl)

/-- C2: Lowest-free-port allocation. With no existing lease for the triple,
a successful `lease` returns a port inside the pool's inclusive range that
is free (not leased in the pool, not reported in use) while every smaller
in-range candidate is not free; and whenever some in-range port is free the
call succeeds and persists. The hypothesis `0 < po.rangeStart` is the
invariant guaranteed by `poolAdd`/`poolUpdate`, which reject zero bounds. -/
theorem lease_lowest_free_port
    (checker : Nat → Bool) (now : Int) (r : Registry)
    (pool tag identifier worktreePath : String) (po : Pool)
    (hpool : pool ≠ "") (hpo : r.findPool pool = some po)
    (hstart : 0 < po.rangeStart)
    (hnew : getExistingLease r identifier pool tag = none) :
    (∀ p r₁ b, lease checker now r pool tag identifier worktreePath = (.ok p, r₁, b) →
      po.rangeStart ≤ p ∧ p ≤ po.rangeEnd ∧
      portFree (getLeasedPorts r pool) checker p = true ∧
      (∀ q, po.rangeStart ≤ q → q < p →
        portFree (getLeasedPorts r pool) checker q = false)) ∧
    ((∃ p, po.rangeStart ≤ p ∧ p ≤ po.rangeEnd ∧
        portFree (getLeasedPorts r pool) checker p = true) →
      ∃ p r₁, lease checker now r pool tag identifier worktreePath = (.ok p, r₁, true)) := by
  constructor
  · intro p r₁ b hcall
    cases hscan : findFreePort (portFree (getLeasedPorts r pool) checker)
        po.rangeStart po.rangeEnd with
    | none =>
      have h1 : lease checker now r pool tag identifier worktreePath
          = (.error (.poolExhausted pool po.rangeStart po.rangeEnd), r, false) := by
        simp [lease, hpool, hpo, hnew, hscan]
      rw [h1] at hcall
      simp at hcall
    | some q =>
      unfold findFreePort at hscan
      obtain ⟨hq1, hq2, hq3, hq4⟩ := scanFrom_eq_some _ _ _ hscan
      cases q with
      | zero => omega
      | succ q =>
        have h1 : lease checker now r pool tag identifier worktreePath
            = (.ok (q + 1),
               { r with leases :=
                   r.leases ++ [⟨q + 1, pool, identifier, worktreePath, tag, now⟩] },
               true) := by
          simp [lease, hpool, hpo, hnew, findFreePort, hscan, addLease]
        rw [h1] at hcall
        simp only [Prod.mk.injEq, Except.ok.injEq] at hcall
        obtain ⟨hp, _, _⟩ := hcall
        subst hp
        exact ⟨hq1, by omega, hq3, hq4⟩
  · rintro ⟨p, hp1, hp2, hp3⟩
    have hsome : (scanFrom (portFree (getLeasedPorts r pool) checker) po.rangeStart
        (po.rangeEnd + 1 - po.rangeStart)).isSome = true :=
      scanFrom_isSome _ _ p hp1 (by omega) hp3
    obtain ⟨q, hq⟩ := Option.isSome_iff_exists.mp hsome
    obtain ⟨hq1, _, _, _⟩ := scanFrom_eq_some _ _ _ hq
    cases q with
    | zero => omega
    | succ q =>
      refine ⟨q + 1,
        { r with leases :=
            r.leases ++ [⟨q + 1, pool, identifier, worktreePath, tag, now⟩] }, ?_⟩
      simp [lease, hpool, hpo, hnew, findFreePort, hq, addLease]

/-- Witness for C2: on `wReg` with port 3301 probed busy, a fresh project
leases 3302 — in range, free, with 3300 and 3301 both rejected. -/
theorem lease_lowest_free_port_witness :
    (3300 : Nat) ≤ 3302 ∧ (3302 : Nat) ≤ 3499 ∧
    portFree (getLeasedPorts wReg "frontend") (fun p => p == 3301) 3302 = true ∧
    (∀ q, 3300 ≤ q → q < 3302 →
      portFree (getLeasedPorts wReg "frontend") (fun p => p == 3301) q = false) :=
  (lease_lowest_free_port (fun p => p == 3301) 0 wReg "frontend" "" "proj2" ""
      ⟨3300, 3499⟩ (by decide) (by rfl) (by decide) (by rfl)).1 3302
    { wReg with leases := wReg.leases ++ [⟨3302, "frontend", "proj2", "", "", 0⟩] }
    true (by rfl)

/-- C3: Pool exhaustion atomicity. When every port of the pool's inclusive
range is either recorded as leased in the pool or reported in use by the
probe, `lease` fails with `PoolExhausted` carrying the range bounds, and the
persisted registry is the unchanged input with nothing saved. -/
theorem lease_pool_exhausted
    (checker : Nat → Bool) (now : Int) (r : Registry)
    (pool tag identifier worktreePath : String) (po : Pool)
    (hpool : pool ≠ "") (hpo : r.findPool pool = some po)
    (hnew : getExistingLease r identifier pool tag = none)
    (hocc : ∀ p, po.rangeStart ≤ p → p ≤ po.rangeEnd →
      (getLeasedPorts r pool).contains p = true ∨ checker p = true) :
    lease checker now r pool tag identifier worktreePath
      = (.error (.poolExhausted pool po.rangeStart po.rangeEnd), r, false) := by
  have hpred : ∀ q, po.rangeStart ≤ q →
      q < po.rangeStart + (po.rangeEnd + 1 - po.rangeStart) →
      portFree (getLeasedPorts r pool) checker q = false := by
    intro q h1 h2
    have hdef : portFree (getLeasedPorts r pool) checker q
        = (!(getLeasedPorts r pool).contains q && !(checker q)) := rfl
    rcases hocc q h1 (by omega) with h | h
    · rw [hdef, h]; rfl
    · rw [hdef, h]; simp
  have hscan := scanFrom_eq_none _ _ hpred
  simp [lease, hpool, hpo, hnew, findFreePort, hscan]

/-- Witness for C3: `wRegFull` has both ports of pool `tiny` leased to
another project, so a fresh lease attempt fails with the range bounds and
leaves everything as it was. -/
theorem lease_pool_exhausted_witness :
    lease (fun _ => false) 0 wRegFull "tiny" "" "proj" ""
      = (.error (.poolExhausted "tiny" 5300 5301), wRegFull, false) :=
  lease_pool_exhausted (fun _ => false) 0 wRegFull "tiny" "" "proj" "" ⟨5300, 5301⟩
    (by decide) (by rfl) (by rfl)
    (by
      intro p h1 h2
      left
      have h1' : 5300 ≤ p := h1
      have h2' : p ≤ 5301 := h2
      have hp : p = 5300 ∨ p = 5301 := by omega
      rcases hp with h | h <;> subst h <;> rfl)

/-- C4: Release tri-state tag semantics. With the tag omitted (`none`),
`release` removes every lease of the identifier; with a concrete tag
(including `""`), exactly the (identifier, tag) matches are removed; zero
matches fail with the corresponding error and leave the persisted registry
untouched and unsaved; otherwise the remainder is persisted and
`removedCount` is the number of matching leases. -/
theorem release_tristate (r : Registry) (identifier t : String) :
    ((r.leases.filter (fun l => l.identifier == identifier)) = [] →
      release r none identifier = (.error .noLeasesForProject, r, false)) ∧
    ((r.leases.filter (fun l => l.identifier == identifier)) ≠ [] →
      release r none identifier
        = (.ok (r.leases.filter (fun l => l.identifier == identifier)).length,
           { r with leases := r.leases.filter (fun l => !(l.identifier == identifier)) },
           true)) ∧
    ((r.leases.filter (fun l => l.identifier == identifier && l.tag == t)) = [] →
      release r (some t) identifier = (.error (.noLeaseWithTag t), r, false)) ∧
    ((r.leases.filter (fun l => l.identifier == identifier && l.tag == t)) ≠ [] →
      release r (some t) identifier
        = (.ok (r.leases.filter
              (fun l => l.identifier == identifier && l.tag == t)).length,
           { r with leases :=
               r.leases.filter (fun l => !(l.identifier == identifier && l.tag == t)) },
           true)) := by
  have key : ∀ p : Lease → Bool,
      r.leases.length - (r.leases.filter (fun l => !(p l))).length
        = (r.leases.filter p).length := by
    intro p
    have := length_filter_add_length_filter_not p r.leases
    omega
  have hAll := key (fun l => l.identifier == identifier)
  have hTag := key (fun l => l.identifier == identifier && l.tag == t)
  have hrelAll : release r none identifier
      = (if r.leases.length
            - (r.leases.filter (fun l => !(l.identifier == identifier))).length = 0
         then ((.error .noLeasesForProject : Except PMError Nat), r, false)
         else (.ok (r.leases.length
                - (r.leases.filter (fun l => !(l.identifier == identifier))).length),
               { r with leases :=
                   r.leases.filter (fun l => !(l.identifier == identifier)) },
               true)) := rfl
  have hrelTag : release r (some t) identifier
      = (if r.leases.length
            - (r.leases.filter
                (fun l => !(l.identifier == identifier && l.tag == t))).length = 0
         then ((.error (.noLeaseWithTag t) : Except PMError Nat), r, false)
         else (.ok (r.leases.length
                - (r.leases.filter (fun l => !(l.identifier == identifier && l.tag == t))).length),
               { r with leases := r.leases.filter (fun l => !(l.identifier == identifier && l.tag == t)) },
               true)) := rfl
  rw [hAll] at hrelAll
  rw [hTag] at hrelTag
  refine ⟨?_, ?_, ?_, ?_⟩
  · intro h
    rw [hrelAll, if_pos (by rw [h]; rfl)]
  · intro h
    have hne : (r.leases.filter (fun l => l.identifier == identifier)).length ≠ 0 := by
      simpa [List.length_eq_zero] using h
    rw [hrelAll, if_neg hne]
  · intro h
    rw [hrelTag, if_pos (by rw [h]; rfl)]
  · intro h
    have hne : (r.leases.filter
        (fun l => l.identifier == identifier && l.tag == t)).length ≠ 0 := by
      simpa [List.length_eq_zero] using h
    rw [hrelTag, if_neg hne]

/-- Witness for C4: releasing with tag omitted on `wReg` removes the single
lease of `proj`, persisting an empty lease list with `removedCount = 1`. -/
theorem release_tristate_witness :
    release wReg none "proj" = (.ok 1, { wReg with leases := [] }, true) :=
  (release_tristate wReg "proj" "").2.1 (by decide)

/-- C5 counterexample: `cexLease` is more than 7 days old and its port is
reported in use by the probe, yet `findStaleLeases` flags it stale — its
non-empty `worktreePath` is missing on disk, so rule (1) fires regardless
of age and liveness, refuting "a lease older than 7 days whose port is
reported in use is never flagged stale". -/
theorem stale_old_inuse_flagged :
    cexNow - cexLease.leasedAt > staleThresholdMs ∧
    (fun _ => true : Nat → Bool) cexLease.port = true ∧
    findStaleLeases (fun _ => false) (fun _ => true) cexNow cexReg = [cexLease] := by
  exact ⟨by decide, rfl, rfl⟩

/-- C5 (amended): a lease is flagged by `findStaleLeases` iff it is in the
registry and either (1) its `worktreePath` is non-empty and missing on
disk, or (2) — when (1) does not hold — it is more than 7 days old and its
port is reported not in use. In particular a lease no older than 7 days
whose `worktreePath` is empty or exists is never flagged, and a lease older
than 7 days whose port is reported in use and whose `worktreePath` is empty
or exists is never flagged. -/
theorem findStaleLeases_characterization
    (fsExists : String → Bool) (inUse : Nat → Bool) (now : Int)
    (r : Registry) (l : Lease) :
    (l ∈ findStaleLeases fsExists inUse now r ↔
      l ∈ r.leases ∧
        ((l.worktreePath ≠ "" ∧ fsExists l.worktreePath = false) ∨
         ((l.worktreePath = "" ∨ fsExists l.worktreePath = true) ∧
          now - l.leasedAt > staleThresholdMs ∧ inUse l.port = false))) ∧
    (now - l.leasedAt ≤ staleThresholdMs →
      (l.worktreePath = "" ∨ fsExists l.worktreePath = true) →
      l ∉ findStaleLeases fsExists inUse now r) ∧
    (now - l.leasedAt > staleThresholdMs → inUse l.port = true →
      (l.worktreePath = "" ∨ fsExists l.worktreePath = true) →
      l ∉ findStaleLeases fsExists inUse now r) := by
  have hiff : ∀ x : Lease, isStaleLease fsExists inUse now x = true ↔
      ((x.worktreePath ≠ "" ∧ fsExists x.worktreePath = false) ∨
       ((x.worktreePath = "" ∨ fsExists x.worktreePath = true) ∧
        now - x.leasedAt > staleThresholdMs ∧ inUse x.port = false)) := by
    intro x
    unfold isStaleLease
    cases hfs : fsExists x.worktreePath <;>
      cases hc : inUse x.port <;>
        by_cases h1 : x.worktreePath = "" <;>
          by_cases h2 : now - x.leasedAt > staleThresholdMs <;>
            simp [h1, h2, hfs, hc]
  have hmem : l ∈ findStaleLeases fsExists inUse now r ↔
      l ∈ r.leases ∧ isStaleLease fsExists inUse now l = true := List.mem_filter
  refine ⟨by rw [hmem, hiff l], ?_, ?_⟩
  · intro hage hwt hin
    rw [hmem] at hin
    rcases (hiff l).mp hin.2 with ⟨hne, hfsf⟩ | ⟨_, hB, _⟩
    · rcases hwt with h | h
      · exact hne h
      · rw [h] at hfsf; simp at hfsf
    · omega
  · intro hage hc hwt hin
    rw [hmem] at hin
    rcases (hiff l).mp hin.2 with ⟨hne, hfsf⟩ | ⟨_, _, hCf⟩
    · rcases hwt with h | h
      · exact hne h
      · rw [h] at hfsf; simp at hfsf
    · rw [hc] at hCf; simp at hCf

/-- Witness for C5 (amended): the fresh lease of `wReg` (empty worktree
path, age 0) is not flagged stale. -/
theorem findStaleLeases_characterization_witness :
    wLease ∉ findStaleLeases (fun _ => false) (fun _ => false) 0 wReg :=
  (findStaleLeases_characterization (fun _ => false) (fun _ => false) 0 wReg
      wLease).2.1 (by decide) (Or.inl rfl)

theorem find?_map_update (pools : List (String × Pool)) (name : String) (po : Pool)
    (h : (pools.find? (fun e => e.1 == name)).isSome = true) :
    ((pools.map (fun e => if e.1 == name then (e.1, po) else e)).find?
        (fun e => e.1 == name)) = some (name, po) := by
  induction pools with
  | nil => simp at h
  | cons e rest ih =>
    by_cases he : e.1 = name
    · simp [List.find?_cons, he]
    · have h' : (rest.find? (fun e => e.1 == name)).isSome = true := by
        simpa [List.find?_cons, he] using h
      simpa [List.find?_cons, he] using ih h'

theorem find?_map_update_other (pools : List (String × Pool)) (name m : String)
    (po : Pool) (hm : m ≠ name) :
    ((pools.map (fun e => if e.1 == name then (e.1, po) else e)).find?
        (fun e => e.1 == m)) = pools.find? (fun e => e.1 == m) := by
  have hnm : name ≠ m := Ne.symm hm
  induction pools with
  | nil => rfl
  | cons e rest ih =>
    by_cases he : e.1 = name
    · simpa [List.find?_cons, he, hnm] using ih
    · by_cases hem : e.1 = m
      · simp [List.find?_cons, he, hem, hm]
      · simpa [List.find?_cons, he, hem] using ih

theorem find?_filter_self (pools : List (String × Pool)) (name : String) :
    ((pools.filter (fun e => !(e.1 == name))).find? (fun e => e.1 == name)) = none := by
  rw [List.find?_eq_none]
  intro x hx
  have hmem := (List.mem_filter.mp hx).2
  simp at hmem ⊢
  exact hmem

theorem find?_filter_other (pools : List (String × Pool)) (name m : String)
    (hm : m ≠ name) :
    ((pools.filter (fun e => !(e.1 == name))).find? (fun e => e.1 == m))
      = pools.find? (fun e => e.1 == m) := by
  have hnm : name ≠ m := Ne.symm hm
  induction pools with
  | nil => rfl
  | cons e rest ih =>
    by_cases he : e.1 = name
    · simpa [List.filter_cons, List.find?_cons, he, hnm] using ih
    · by_cases hem : e.1 = m
      · simp [List.filter_cons, List.find?_cons, he, hem, hm]
      · simpa [List.filter_cons, List.find?_cons, he, hem] using ih

theorem isSome_pools_find?_of_findPool {r : Registry} {name : String}
    (h : (r.findPool name).isSome = true) :
    (r.pools.find? (fun e => e.1 == name)).isSome = true := by
  unfold Registry.findPool at h
  cases hf : r.pools.find? (fun e => e.1 == name) with
  | none => rw [hf] at h; simp at h
  | some e => rfl

/-- C6: poolUpdate rejection with the `-https` compatibility quirk. If any
lease whose pool is the given name, or the name with an `-https` suffix,
has a port outside the new inclusive bounds, `poolUpdate` fails and the
persisted registry is the unchanged input with nothing saved. Otherwise
(valid arguments, existing pool, no such lease) the pool's range is
replaced by the new bounds and persisted, with every lease and every other
pool untouched. -/
theorem poolUpdate_https_quirk (r : Registry) (name : String) (rs re : Nat) :
    ((∃ l ∈ r.leases, (l.pool = name ∨ l.pool = name ++ "-https") ∧
        (l.port < rs ∨ re < l.port)) →
      ∃ e, poolUpdate r name rs re = (.error e, r, false)) ∧
    (name ≠ "" → rs ≠ 0 → re ≠ 0 → rs < re → (r.findPool name).isSome = true →
      (∀ l ∈ r.leases, (l.pool = name ∨ l.pool = name ++ "-https") →
        rs ≤ l.port ∧ l.port ≤ re) →
      ∃ r₁, poolUpdate r name rs re = (.ok (), r₁, true) ∧
        r₁.findPool name = some ⟨rs, re⟩ ∧ r₁.leases = r.leases ∧
        (∀ m, m ≠ name → r₁.findPool m = r.findPool m)) := by
  constructor
  · rintro ⟨l, hl, hpl, hport⟩
    by_cases hv : name = "" ∨ rs = 0 ∨ re = 0
    · exact ⟨.missingPoolArgs, by simp only [poolUpdate, hv, if_true]⟩
    · by_cases hrange : rs ≥ re
      · exact ⟨.invalidRange, by simp only [poolUpdate, hv, if_false, hrange, if_true]⟩
      · have hb1 : (l.pool == name || l.pool == name ++ "-https") = true := by
          rcases hpl with h | h <;> simp [h]
        have hb2 : (decide (l.port < rs) || decide (l.port > re)) = true := by
          rcases hport with h | h <;> simp [h]
        have hmem : l ∈ r.leases.filter
            (fun l => (l.pool == name || l.pool == name ++ "-https")
              && (decide (l.port < rs) || decide (l.port > re))) :=
          List.mem_filter.mpr ⟨hl, by rw [hb1, hb2]; rfl⟩
        have hlen : 0 < (r.leases.filter
            (fun l => (l.pool == name || l.pool == name ++ "-https")
              && (decide (l.port < rs) || decide (l.port > re)))).length :=
          List.length_pos.mpr (List.ne_nil_of_mem hmem)
        refine ⟨.leasesOutOfRange ((r.leases.filter
            (fun l => (l.pool == name || l.pool == name ++ "-https")
              && (decide (l.port < rs) || decide (l.port > re)))).length), ?_⟩
        simp only [poolUpdate, hv, if_false, hrange, hlen, if_true]
  · intro h1 h2 h3 h4 h5 h6
    have hv : ¬(name = "" ∨ rs = 0 ∨ re = 0) := by
      rintro (h | h | h) <;> [exact h1 h; exact h2 h; exact h3 h]
    have hrange : ¬(rs ≥ re) := by omega
    have haff : r.leases.filter
        (fun l => (l.pool == name || l.pool == name ++ "-https")
          && (decide (l.port < rs) || decide (l.port > re))) = [] := by
      rw [List.filter_eq_nil_iff]
      intro l hl hcontra
      rw [Bool.and_eq_true, Bool.or_eq_true, Bool.or_eq_true] at hcontra
      obtain ⟨hp, hq⟩ := hcontra
      have hp' : l.pool = name ∨ l.pool = name ++ "-https" := by
        rcases hp with h | h
        · exact Or.inl (by simpa using h)
        · exact Or.inr (by simpa using h)
      obtain ⟨hge, hle⟩ := h6 l hl hp'
      rcases hq with h | h
      · have := of_decide_eq_true h; omega
      · have := of_decide_eq_true h; omega
    have hsome := isSome_pools_find?_of_findPool h5
    have hupd : updatePoolReg r name rs re
        = .ok { r with pools := r.pools.map (fun e => if e.1 == name then (e.1, ⟨rs, re⟩) else e) } := by
      unfold updatePoolReg
      rw [if_pos h5]
    refine ⟨{ r with pools := r.pools.map (fun e => if e.1 == name then (e.1, ⟨rs, re⟩) else e) }, ?_, ?_, rfl, ?_⟩
    · simp only [poolUpdate, hv, if_false, hrange, haff, List.length_nil,
        Nat.lt_irrefl, hupd]
    · show (((r.pools.map (fun e => if e.1 == name then (e.1, (⟨rs, re⟩ : Pool)) else e)).find? (fun e => e.1 == name)).map (·.2)) = some ⟨rs, re⟩
      rw [find?_map_update r.pools name ⟨rs, re⟩ hsome]
      rfl
    · intro m hm
      show (((r.pools.map (fun e => if e.1 == name then (e.1, (⟨rs, re⟩ : Pool)) else e)).find? (fun e => e.1 == m)).map (·.2)) = (r.pools.find? (fun e => e.1 == m)).map (·.2)
      rw [find?_map_update_other r.pools name m ⟨rs, re⟩ hm]

/-- Witness for C6: raising pool `frontend` of `wReg` to [3300, 3600] keeps
the 3300 lease in range, so the update succeeds, persists the new bounds and
touches nothing else. -/
theorem poolUpdate_https_quirk_witness :
    ∃ r₁, poolUpdate wReg "frontend" 3300 3600 = (.ok (), r₁, true) ∧
      r₁.findPool "frontend" = some ⟨3300, 3600⟩ ∧ r₁.leases = wReg.leases ∧
      (∀ m, m ≠ "frontend" → r₁.findPool m = wReg.findPool m) :=
  (poolUpdate_https_quirk wReg "frontend" 3300 3600).2 (by decide) (by decide)
    (by decide) (by decide) (by rfl) (by decide)

/-- C7: poolDelete rejection. Deleting a pool still referenced by at least
one lease (or a missing/empty pool name) fails and the persisted registry is
the unchanged input with nothing saved; deleting an existing pool with zero
leases succeeds, removes exactly that pools entry and keeps every lease. -/
theorem poolDelete_spec (r : Registry) (name : String) :
    ((∃ l ∈ r.leases, l.pool = name) →
      ∃ e, poolDelete r name = (.error e, r, false)) ∧
    (name ≠ "" → (r.findPool name).isSome = true →
      (∀ l ∈ r.leases, l.pool ≠ name) →
      ∃ r₁, poolDelete r name = (.ok (), r₁, true) ∧
        r₁.findPool name = none ∧ (∀ m, m ≠ name → r₁.findPool m = r.findPool m) ∧
        r₁.leases = r.leases) := by
  constructor
  · rintro ⟨l, hl, hp⟩
    by_cases hn : name = ""
    · exact ⟨.missingPoolArgs, by simp [poolDelete, hn]⟩
    · cases hfp : (r.findPool name).isSome with
      | false =>
        refine ⟨.poolDoesNotExist name, ?_⟩
        have hreg : deletePoolReg r name = .error (.poolDoesNotExist name) := by
          unfold deletePoolReg
          rw [if_neg (by simp [hfp])]
        simp [poolDelete, hn, hreg]
      | true =>
        have hcount : 0 < (r.leases.filter (fun l => l.pool == name)).length :=
          List.length_pos.mpr (List.ne_nil_of_mem (List.mem_filter.mpr ⟨hl, by simp [hp]⟩))
        have hreg : deletePoolReg r name
            = .ok ({ r with pools := r.pools.filter (fun e => !(e.1 == name)) }, (r.leases.filter (fun l => l.pool == name)).length) := by
          unfold deletePoolReg
          rw [if_pos hfp]
        refine ⟨.poolHasLeases name ((r.leases.filter (fun l => l.pool == name)).length), ?_⟩
        simp only [poolDelete, hn, if_false, hreg]
        rw [if_pos hcount]
  · intro hn hfp hnone
    have hzero : (r.leases.filter (fun l => l.pool == name)) = [] := by
      rw [List.filter_eq_nil_iff]
      intro l hl h
      exact hnone l hl (by simpa using h)
    have hreg : deletePoolReg r name
        = .ok ({ r with pools := r.pools.filter (fun e => !(e.1 == name)) }, (r.leases.filter (fun l => l.pool == name)).length) := by
      unfold deletePoolReg
      rw [if_pos hfp]
    refine ⟨{ r with pools := r.pools.filter (fun e => !(e.1 == name)) }, ?_, ?_, ?_, rfl⟩
    · simp only [poolDelete, hn, if_false, hreg, hzero, List.length_nil]
      rfl
    · show ((r.pools.filter (fun e => !(e.1 == name))).find? (fun e => e.1 == name)).map (·.2) = none
      rw [find?_filter_self]
      rfl
    · intro m hm
      show ((r.pools.filter (fun e => !(e.1 == name))).find? (fun e => e.1 == m)).map (·.2) = (r.pools.find? (fun e => e.1 == m)).map (·.2)
      rw [find?_filter_other r.pools name m hm]

/-- Registry with two pools and no leases, for the C7 witness. -/
def wRegTwoPools : Registry :=
  ⟨[("frontend", ⟨3300, 3499⟩), ("backend", ⟨5300, 5499⟩)], []⟩

/-- Witness for C7: deleting the lease-free pool `backend` of `wRegTwoPools`
succeeds, removes exactly that entry and keeps the (empty) lease list. -/
theorem poolDelete_spec_witness :
    ∃ r₁, poolDelete wRegTwoPools "backend" = (.ok (), r₁, true) ∧
      r₁.findPool "backend" = none ∧
      (∀ m, m ≠ "backend" → r₁.findPool m = wRegTwoPools.findPool m) ∧
      r₁.leases = wRegTwoPools.leases :=
  (poolDelete_spec wRegTwoPools "backend").2 (by decide) (by rfl)
    (by intro l hl; exact absurd hl (List.not_mem_nil l))

/-- C8: Guaranteed lock release. Once `acquireLock` succeeds, `withLock`
runs `fn` on the guarded data and releases the marker on every exit path:
the outcome is exactly `fn`'s outcome (normal return or thrown error, both
propagated by `.inner`), and the final state has no lock marker. Moreover
`releaseLock` never fails: releasing an already-absent marker is a no-op. -/
theorem withLock_guaranteed_release {σ ε α : Type} (fn : σ → Except ε α × σ)
    (stale : Bool) (s : LockFs σ) (h : (acquireLock stale s).isSome = true) :
    (withLock fn stale s = (.inner (fn s.data).1, ⟨false, (fn s.data).2⟩)) ∧
    (∀ t : LockFs σ, releaseLock t = .ok ⟨false, t.data⟩) := by
  constructor
  · unfold withLock
    unfold acquireLock at h ⊢
    by_cases hp : s.lockPresent = true
    · by_cases hs : stale = true
      · simp [hp, hs, releaseLock, unlinkLock]
      · simp [hp, hs] at h
    · simp [Bool.not_eq_true] at hp
      simp [hp, releaseLock, unlinkLock]
  · intro t
    unfold releaseLock unlinkLock
    by_cases hp : t.lockPresent = true <;> simp [hp]

/-- Witness for C8: a lock-free state is acquired, the wrapped function runs
and its result is returned with the marker released. -/
theorem withLock_guaranteed_release_witness :
    withLock (fun n : Nat => ((.ok n : Except Unit Nat), n + 1)) false ⟨false, 0⟩
      = (.inner (.ok 0), ⟨false, 1⟩) :=
  (withLock_guaranteed_release (fun n : Nat => ((.ok n : Except Unit Nat), n + 1))
      false ⟨false, 0⟩ (by rfl)).1

/-- C9: A live (non-dry-run) cleanup removes every lease whose PORT equals
the port of some stale candidate — removal is keyed by port, not lease
identity. On `cexReg9`, where a stale and a non-stale lease share port 5300,
the single stale candidate causes both to be removed: `removedCount = 2`
exceeds the one reported candidate and the non-stale lease is gone too. -/
theorem cleanup_removes_by_port (fsExists : String → Bool) (inUse : Nat → Bool)
    (now : Int) (r : Registry) :
    ((cleanup fsExists inUse now r false).2.1.leases
      = r.leases.filter
          (fun l => !(((findStaleLeases fsExists inUse now r).map (·.port)).contains l.port))) ∧
    (findStaleLeases (fun _ => false) (fun _ => false) 0 cexReg9
        = [⟨5300, "backend", "projA", "/gone", "", 0⟩] ∧
      cleanup (fun _ => false) (fun _ => false) 0 cexReg9 false
        = (([⟨5300, "backend", "projA", "/gone", "", 0⟩], 2),
           ⟨[("backend", ⟨5300, 5499⟩)], []⟩, true)) := by
  constructor
  · cases hs : findStaleLeases fsExists inUse now r with
    | nil => simp [cleanup, hs]
    | cons a as => simp [cleanup, hs, removeStaleLeases]
  · exact ⟨rfl, rfl⟩

/-- C10: A range bound of 0 is treated as a missing argument. `poolAdd` and
`poolUpdate` reject empty names and zero bounds with the
missing-required-argument error (even when `0 < rangeEnd` would satisfy the
`rangeStart < rangeEnd` constraint), leaving the registry unsaved; hence no
successful call ever carries a zero bound or empty name. -/
theorem pool_zero_bound_missing_argument (r : Registry) (name : String) (rs re : Nat) :
    (poolAdd r name 0 re = (.error .missingPoolArgs, r, false)) ∧
    (poolAdd r name rs 0 = (.error .missingPoolArgs, r, false)) ∧
    (poolUpdate r name 0 re = (.error .missingPoolArgs, r, false)) ∧
    (poolUpdate r name rs 0 = (.error .missingPoolArgs, r, false)) ∧
    (poolAdd r "" rs re = (.error .missingPoolArgs, r, false)) ∧
    (poolUpdate r "" rs re = (.error .missingPoolArgs, r, false)) ∧
    (∀ res b, poolAdd r name rs re = (.ok (), res, b) →
      rs ≠ 0 ∧ re ≠ 0 ∧ name ≠ "") ∧
    (∀ res b, poolUpdate r name rs re = (.ok (), res, b) →
      rs ≠ 0 ∧ re ≠ 0 ∧ name ≠ "") := by
  refine ⟨by simp [poolAdd], by simp [poolAdd], by simp [poolUpdate],
    by simp [poolUpdate], by simp [poolAdd], by simp [poolUpdate], ?_, ?_⟩
  · intro res b hok
    have hcond : ¬(name = "" ∨ rs = 0 ∨ re = 0) := by
      intro hv
      simp [poolAdd, hv] at hok
    exact ⟨fun h => hcond (Or.inr (Or.inl h)), fun h => hcond (Or.inr (Or.inr h)),
      fun h => hcond (Or.inl h)⟩
  · intro res b hok
    have hcond : ¬(name = "" ∨ rs = 0 ∨ re = 0) := by
      intro hv
      simp [poolUpdate, hv] at hok
    exact ⟨fun h => hcond (Or.inr (Or.inl h)), fun h => hcond (Or.inr (Or.inr h)),
      fun h => hcond (Or.inl h)⟩

/-- Witness for C10: a successful `poolAdd` (on `wReg`, adding `extra`
= [4000, 4100]) indeed has non-zero bounds and a non-empty name. -/
theorem pool_zero_bound_missing_argument_witness :
    (4000 : Nat) ≠ 0 ∧ (4100 : Nat) ≠ 0 ∧ ("extra" : String) ≠ "" :=
  (pool_zero_bound_missing_argument wReg "extra" 4000 4100).2.2.2.2.2.2.1
    { wReg with pools := wReg.pools ++ [("extra", ⟨4000, 4100⟩)] } true (by rfl)

end PortManager
